import Mathlib

/-!
Shallow embedding of the Pilosa API facade, cluster-state method gating,
and the Index/Field registry, translated from `api.go` and `index.go`.
Go maps are modelled as association lists (with lookup by first match) or
as functions to `Option`; Go errors are modelled by an explicit error type
and `Except`.
-/

namespace Pilosa

/-- The `apiMethod` enumeration from `api.go` (API validation constants).
Constructors keep the Go constant names; the commented-out Go constants
(apiHosts, apiLocalID, ...) are omitted there as well. -/
inductive ApiMethod
  | apiClusterMessage
  | apiCreateField
  | apiCreateIndex
  | apiDeleteField
  | apiDeleteIndex
  | apiDeleteView
  | apiExportCSV
  | apiFragmentBlockData
  | apiFragmentBlocks
  | apiFieldAttrDiff
  | apiImport
  | apiImportValue
  | apiIndex
  | apiIndexAttrDiff
  | apiMarshalFragment
  | apiQuery
  | apiRecalculateCaches
  | apiRemoveNode
  | apiResizeAbort
  | apiSetCoordinator
  | apiSliceNodes
  | apiUnmarshalFragment
  | apiViews
  deriving DecidableEq, Repr, Fintype

/-- The three cluster lifecycle states (`ClusterStateStarting`,
`ClusterStateNormal`, `ClusterStateResizing` string constants in the Go
source). -/
inductive ClusterState
  | starting
  | normal
  | resizing
  deriving DecidableEq, Repr, Fintype

/-- The Go string value of each cluster-state constant. -/
def clusterStateName : ClusterState → String
  | .starting => "STARTING"
  | .normal => "NORMAL"
  | .resizing => "RESIZING"

/-- The name of each api method as produced by the Go stringer. -/
def apiMethodName : ApiMethod → String
  | .apiClusterMessage => "apiClusterMessage"
  | .apiCreateField => "apiCreateField"
  | .apiCreateIndex => "apiCreateIndex"
  | .apiDeleteField => "apiDeleteField"
  | .apiDeleteIndex => "apiDeleteIndex"
  | .apiDeleteView => "apiDeleteView"
  | .apiExportCSV => "apiExportCSV"
  | .apiFragmentBlockData => "apiFragmentBlockData"
  | .apiFragmentBlocks => "apiFragmentBlocks"
  | .apiFieldAttrDiff => "apiFieldAttrDiff"
  | .apiImport => "apiImport"
  | .apiImportValue => "apiImportValue"
  | .apiIndex => "apiIndex"
  | .apiIndexAttrDiff => "apiIndexAttrDiff"
  | .apiMarshalFragment => "apiMarshalFragment"
  | .apiQuery => "apiQuery"
  | .apiRecalculateCaches => "apiRecalculateCaches"
  | .apiRemoveNode => "apiRemoveNode"
  | .apiResizeAbort => "apiResizeAbort"
  | .apiSetCoordinator => "apiSetCoordinator"
  | .apiSliceNodes => "apiSliceNodes"
  | .apiUnmarshalFragment => "apiUnmarshalFragment"
  | .apiViews => "apiViews"

/-- `methodsCommon` from `api.go`: the set of api methods valid in every
cluster state. Go `map[apiMethod]struct\x7b\x7d` sets are modelled as lists with
membership. -/
def methodsCommon : List ApiMethod :=
  [.apiClusterMessage, .apiMarshalFragment, .apiSetCoordinator]

/-- `methodsResizing` from `api.go`. -/
def methodsResizing : List ApiMethod :=
  [.apiResizeAbort]

/-- `methodsNormal` from `api.go`. -/
def methodsNormal : List ApiMethod :=
  [.apiCreateField, .apiCreateIndex, .apiDeleteField, .apiDeleteIndex,
   .apiDeleteView, .apiExportCSV, .apiFragmentBlockData, .apiFragmentBlocks,
   .apiFieldAttrDiff, .apiImport, .apiImportValue, .apiIndex,
   .apiIndexAttrDiff, .apiQuery, .apiRecalculateCaches, .apiRemoveNode,
   .apiSliceNodes, .apiUnmarshalFragment, .apiViews]

/-- `appendMap` from `api.go`: union of two method sets. -/
def appendMap (a b : List ApiMethod) : List ApiMethod := a ++ b

/-- `validAPIMethods` from `api.go`: the allowed method set per cluster
state (STARTING maps to the common set alone; NORMAL and RESIZING map to
the common set united with their state-specific set). -/
def validAPIMethods : ClusterState → List ApiMethod
  | .starting => methodsCommon
  | .normal => appendMap methodsCommon methodsNormal
  | .resizing => appendMap methodsCommon methodsResizing

/-- The error values surfaced by the embedded API and registry code
(`ApiMethodNotAllowedError`, `ErrIndexNotFound`, `ErrFieldExists`, ...). -/
inductive ApiError
  | methodNotAllowed (method : ApiMethod) (state : ClusterState)
  | indexNotFound
  | indexExists
  | fieldNotFound
  | fieldExists
  | fragmentNotFound
  | nodeIDNotExists
  | invalidCacheType
  | invalidView
  | nameRequired
  | invalidName
  | clusterDoesNotOwnSlice
  | broadcastFailed (msg : String)
  deriving DecidableEq, Repr

/-- The message carried by a method-not-allowed error, as formatted by
`API.validate` in `api.go`. -/
def ApiError.message : ApiError → String
  | .methodNotAllowed f s =>
      "api method " ++ apiMethodName f ++ " not allowed in state " ++ clusterStateName s
  | _ => ""

/-- `API.validate` from `api.go`: look up the current cluster state and
check that the method is in that state's allowed set. -/
def validate (state : ClusterState) (f : ApiMethod) : Except ApiError Unit :=
  if f ∈ validAPIMethods state then .ok ()
  else .error (.methodNotAllowed f state)

/-- The state-specific method set, as the spec describes it: STARTING has
no state-specific methods, NORMAL adds `methodsNormal`, RESIZING adds
`methodsResizing`. (Spec-side definition, to be compared with
`validAPIMethods` built from the source.) -/
def specStateSet : ClusterState → List ApiMethod
  | .starting => []
  | .normal => methodsNormal
  | .resizing => methodsResizing

/-- Lookup in a Go map modelled as an association list (first match). -/
def mapGet {κ α : Type} [DecidableEq κ] (m : List (κ × α)) (k : κ) : Option α :=
  (m.find? (fun kv => decide (kv.1 = k))).map Prod.snd

/-- Assignment `m[k] = v` in a Go map modelled as an association list. -/
def mapSet {κ α : Type} [DecidableEq κ] (m : List (κ × α)) (k : κ) (v : α) : List (κ × α) :=
  m.filter (fun kv => decide (¬ kv.1 = k)) ++ [(k, v)]

/-- `delete(m, k)` on a Go map modelled as an association list. -/
def mapDelete {κ α : Type} [DecidableEq κ] (m : List (κ × α)) (k : κ) : List (κ × α) :=
  m.filter (fun kv => decide (¬ kv.1 = k))

/-- Attribute values attached to a row or column id, modelled as a
string-to-string map. -/
abbrev Attrs : Type := List (String × String)

/-- An attribute store, modelled as an association list from entity id to
its attributes (the Go `AttrStore` data, per §4.4 of the spec). -/
abbrev AttrStoreData : Type := List (Nat × Attrs)

/-- Modelled from the spec: `attr.go` is not under `src/`. The spec fixes
only that the id space is partitioned into fixed-size contiguous blocks;
the concrete width is irrelevant to the claims. -/
def attrBlockSize : Nat := 100

/-- The block id that owns entity id `k` (fixed-size contiguous blocks). -/
def blockOf (k : Nat) : Nat := k / attrBlockSize

/-- An `AttrBlock` from `api.go`: a block id together with its content
checksum. -/
structure AttrBlock where
  id : Nat
  checksum : Nat
  deriving DecidableEq, Repr

/-- Modelled from the spec: `attr.go` is not under `src/`.
`BlockData(blockID)` returns the full id-to-attributes mapping for that
block (§4.4). -/
def BlockData (store : AttrStoreData) (b : Nat) : AttrStoreData :=
  store.filter (fun kv => decide (blockOf kv.1 = b))

/-- Modelled from the spec: `attr.go` is not under `src/`. `Blocks()`
returns `(blockID, checksum)` pairs for all non-empty blocks, where the
checksum is a pure function of the block contents (§4.4). The checksum
function `cks` is an explicit parameter. -/
def Blocks (cks : AttrStoreData → Nat) (store : AttrStoreData) : List AttrBlock :=
  ((store.map (fun kv => blockOf kv.1)).dedup).map
    (fun b => { id := b, checksum := cks (BlockData store b) })

/-- Modelled from the spec: `attr.go` is not under `src/`.
`AttrBlocks.Diff` returns the symmetric set of block ids whose checksum
differs between the two summaries: present with a different checksum, or
present on one side only (§4.4). -/
def AttrBlocks.Diff (a b : List AttrBlock) : List Nat :=
  ((a.map AttrBlock.id) ++ (b.map AttrBlock.id)).dedup.filter
    (fun i => decide (¬ ((a.find? (fun blk => decide (blk.id = i))).map AttrBlock.checksum
        = (b.find? (fun blk => decide (blk.id = i))).map AttrBlock.checksum)))

/-- The merge loop shared by `API.IndexAttrDiff` and `API.FieldAttrDiff`
in `api.go`: for every block id in the diff, read the block data and copy
every entry into the result map (`attrs[k] = v`). The Go result map is
modelled as a function to `Option`. -/
def attrDiffMerge (store : AttrStoreData) (diffIds : List Nat) : Nat → Option Attrs :=
  diffIds.foldl
    (fun acc b =>
      (BlockData store b).foldl
        (fun acc2 kv => Function.update acc2 kv.1 (some kv.2)) acc)
    (fun _ => none)

/-- Modelled from the spec: `validate_name` lives in a file not under
`src/`. The spec requires only that names be non-empty and that names
containing disallowed characters be rejected; allowed characters are
modelled as lower-case letters, digits, dash and underscore. -/
def validNameChar (c : Char) : Bool :=
  c.isLower || c.isDigit || c == Char.ofNat 45 || c == Char.ofNat 95

/-- Modelled from the spec: `ValidateName` (not under `src/`) rejects
empty names and names with disallowed characters. -/
def ValidateName (name : String) : Except ApiError Unit :=
  if name = "" then .error .invalidName
  else if name.toList.all validNameChar then .ok ()
  else .error .invalidName

/-- Modelled from the spec: `cache.go` is not under `src/`; the spec only
requires that a cache-type option be checked for validity. -/
def IsValidCacheType (ct : String) : Bool :=
  ct == "lru" || ct == "ranked" || ct == "none"

/-- The field options consumed by `Index.createField` in `index.go`
(`opt.CacheType`; further options are external to the excerpt). -/
structure FieldOptions where
  cacheType : String := ""
  deriving DecidableEq, Repr

/-- Modelled from the spec: `FieldOptions.Validate` lives in `field.go`,
not under `src/`; beyond the name and cache-type checks made by
`Index.createField` itself the spec states no further constraint, so the
remaining validation is modelled as succeeding. -/
def FieldOptions.Validate (_ : FieldOptions) : Except ApiError Unit := .ok ()

/-- A bitmap fragment for one slice of the standard view, modelled as its
list of (row id, column id) bits. -/
abbrev Fragment : Type := List (Nat × Nat)

/-- A Field: one bitmap dimension inside an Index. `field.go` is not
under `src/`; the parts of the Field consumed by `api.go`/`index.go` are
modelled from the spec: its name and path, its applied options, its view
names, its per-slice fragments of the standard view, and its row
attribute store. -/
structure Field where
  path : String
  indexName : String
  name : String
  options : FieldOptions := {}
  views : List String := []
  fragments : List (Nat × Fragment) := []
  rowAttrStore : AttrStoreData := []
  deriving DecidableEq, Repr

/-- Modelled from the spec: `NewField` (in `field.go`, not under `src/`)
validates the field name before constructing the field. -/
def NewField (path indexName name : String) : Except ApiError Field :=
  match ValidateName name with
  | .error e => .error e
  | .ok _ => .ok { path := path, indexName := indexName, name := name }

/-- Modelled from the spec: `Field.DeleteView` (in `field.go`, not under
`src/`) removes the named view; a missing view yields `ErrInvalidView`
(which `API.DeleteView` then ignores, since views do not exist on every
node). -/
def Field.DeleteView (f : Field) (viewName : String) : Except ApiError Field :=
  if viewName ∈ f.views then
    .ok { f with views := f.views.erase viewName }
  else .error .invalidView

/-- An Index from `index.go`: a named container of Fields. The Go
`fields map[string]*Field` registry is an association list. Side effects
on the file system and on field lifecycle are made explicit as model
state: `dirs` is the set of on-disk field directories under the index
path, and `closedFields` logs every `Field.Close` call issued by the
index. -/
structure Index where
  path : String
  name : String
  fields : List (String × Field) := []
  columnAttrStore : AttrStoreData := []
  remoteMaxSlice : Nat := 0
  dirs : List String := []
  closedFields : List String := []
  deriving DecidableEq, Repr

/-- `NewIndex` from `index.go`: validates the name, then returns an index
with an empty field registry. -/
def NewIndex (path name : String) : Except ApiError Index :=
  match ValidateName name with
  | .error e => .error e
  | .ok _ => .ok { path := path, name := name }

/-- `Index.FieldPath` from `index.go`: the path of a field directory. -/
def Index.FieldPath (i : Index) (name : String) : String :=
  i.path ++ "/" ++ name

/-- `Index.Field` from `index.go`: registry lookup by name. -/
def Index.Field (i : Index) (name : String) : Option Field :=
  mapGet i.fields name

/-- The order used by `fieldSlice` when `Index.Fields` sorts the registry
(`field.go` is not under `src/`; the order is by field name, mirroring
the `indexSlice.Less` in `index.go` and §4.3 of the spec). -/
def fieldLe (a b : Field) : Prop := a.name ≤ b.name

instance : DecidableRel fieldLe :=
  fun a b => inferInstanceAs (Decidable (a.name ≤ b.name))

/-- `Index.Fields` from `index.go`: collect the registry values and sort
them (`sort.Sort(fieldSlice(a))`). -/
def Index.Fields (i : Index) : List Pilosa.Field :=
  List.insertionSort fieldLe (i.fields.map Prod.snd)

/-- `Index.createField` from `index.go`: requires a non-empty name and a
valid cache type, validates options, constructs the field via `NewField`
(which validates the name), opens it (creating its directory), applies
the options, saves its meta, and registers it. -/
def Index.createField (i : Index) (name : String) (opt : FieldOptions) :
    Except ApiError (Pilosa.Field × Index) :=
  if name = "" then .error .nameRequired
  else if opt.cacheType ≠ "" && !IsValidCacheType opt.cacheType then
    .error .invalidCacheType
  else
    match opt.Validate with
    | .error e => .error e
    | .ok _ =>
      match NewField (i.FieldPath name) i.name name with
      | .error e => .error e
      | .ok f0 =>
        let f := { f0 with options := opt }
        .ok (f, { i with
                  fields := mapSet i.fields name f,
                  dirs := i.dirs ++ [i.FieldPath name] })

/-- `Index.CreateField` from `index.go`: fails with `ErrFieldExists` when
the name is already registered. -/
def Index.CreateField (i : Index) (name : String) (opt : FieldOptions) :
    Except ApiError (Pilosa.Field × Index) :=
  if mapGet i.fields name ≠ none then .error .fieldExists
  else i.createField name opt

/-- `Index.CreateFieldIfNotExists` from `index.go`: returns the existing
field unchanged when the name is already registered. -/
def Index.CreateFieldIfNotExists (i : Index) (name : String) (opt : FieldOptions) :
    Except ApiError (Pilosa.Field × Index) :=
  match mapGet i.fields name with
  | some f => .ok (f, i)
  | none => i.createField name opt

/-- `Index.DeleteField` from `index.go`: a missing field is ignored; an
existing field is closed, its directory removed, and its registry entry
dropped. `Field.Close` is in `field.go` (not under `src/`) and is
modelled as succeeding while being logged in `closedFields`. -/
def Index.DeleteField (i : Index) (name : String) : Except ApiError Index :=
  match mapGet i.fields name with
  | none => .ok i
  | some _ =>
    .ok { i with
          fields := mapDelete i.fields name,
          dirs := i.dirs.filter (fun d => decide (¬ d = i.FieldPath name)),
          closedFields := i.closedFields ++ [name] }

/-- The `internal.Field` wire representation (modelled by its name; the
encoded metadata is external to the excerpt). -/
structure InternalField where
  name : String
  deriving DecidableEq, Repr

/-- The `internal.Index` wire representation built by `encodeIndex`. -/
structure InternalIndex where
  name : String
  fields : List InternalField
  deriving DecidableEq, Repr

/-- Modelled from the spec: `encodeFields` lives in `field.go`, not under
`src/`; it maps `encodeField` over the given fields, preserving order. -/
def encodeFields (a : List Field) : List InternalField :=
  a.map (fun f => { name := f.name })

/-- `encodeIndex` from `index.go`: the wire representation carries the
index name and the encoding of `d.Fields()`. -/
def encodeIndex (d : Index) : InternalIndex :=
  { name := d.name, fields := encodeFields d.Fields }

/-- Modelled from the spec: `holder.go` is not under `src/`. The Holder
is the registry of Indexes (mapping name to Index, §2/§3); the
`recalcCount` counter logs `Holder.RecalculateCaches` calls. -/
structure Holder where
  indexes : List (String × Index) := []
  recalcCount : Nat := 0
  deriving DecidableEq, Repr

/-- `Holder.Index`: registry lookup by name (nil pointer modelled as
`none`). -/
def Holder.Index (h : Holder) (name : String) : Option Pilosa.Index :=
  mapGet h.indexes name

/-- `Holder.Field`: index lookup followed by field lookup. -/
def Holder.Field (h : Holder) (indexName fieldName : String) : Option Pilosa.Field :=
  match h.Index indexName with
  | none => none
  | some ix => ix.Field fieldName

/-- `Holder.Fragment` for the standard view: index, field, then per-slice
fragment lookup (fragment storage is modelled inside the Field). -/
def Holder.Fragment (h : Holder) (indexName fieldName : String) (slice : Nat) :
    Option Fragment :=
  match h.Field indexName fieldName with
  | none => none
  | some f => mapGet f.fragments slice

/-- Modelled from the spec: `Holder.CreateIndex` (in `holder.go`, not
under `src/`) fails on a duplicate name (`AlreadyExists`, §7) and
otherwise constructs the index via `NewIndex` (validating the name) and
registers it. -/
def Holder.CreateIndex (h : Holder) (name : String) :
    Except ApiError (Holder × Pilosa.Index) :=
  if mapGet h.indexes name ≠ none then .error .indexExists
  else
    match NewIndex name name with
    | .error e => .error e
    | .ok ix => .ok ({ h with indexes := mapSet h.indexes name ix }, ix)

/-- Modelled from the spec: `Holder.DeleteIndex` (not under `src/`); per
the doc comment on `API.DeleteIndex`, a missing index is not an error. -/
def Holder.DeleteIndex (h : Holder) (name : String) : Except ApiError Holder :=
  .ok { h with indexes := mapDelete h.indexes name }

/-- Modelled from the spec: `Holder.RecalculateCaches` recomputes all
top-N caches; the local effect is logged by bumping `recalcCount`. -/
def Holder.RecalculateCaches (h : Holder) : Holder :=
  { h with recalcCount := h.recalcCount + 1 }

/-- The observable actions of a mutating API call: applying the local
mutation, and handing a message to the Broadcaster. -/
inductive Action
  | localApply
  | broadcastSend
  deriving DecidableEq, Repr

/-- The outcome of one mutating API call: the holder afterwards, the
returned value or error, and the ordered trace of actions performed.
`localApply` is recorded when the local mutation completes successfully;
`broadcastSend` when `SendSync` is invoked. -/
structure OpOutcome (α : Type) where
  holder : Holder
  result : Except ApiError α
  trace : List Action
  deriving Repr

/-- The outcome of the Broadcaster `SendSync` call, supplied as a
parameter (the transport is an external collaborator). -/
abbrev SendSyncResult : Type := Except String Unit

/-- `API.CreateIndex` from `api.go`: validate, create the index in the
holder, then broadcast; a broadcast failure is returned as an error
without rolling back the holder mutation. -/
def API.CreateIndex (state : ClusterState) (h : Holder) (indexName : String)
    (bres : SendSyncResult) : OpOutcome Pilosa.Index :=
  match validate state .apiCreateIndex with
  | .error e => ⟨h, .error e, []⟩
  | .ok _ =>
    match h.CreateIndex indexName with
    | .error e => ⟨h, .error e, []⟩
    | .ok (h2, ix) =>
      match bres with
      | .error msg => ⟨h2, .error (.broadcastFailed msg), [.localApply, .broadcastSend]⟩
      | .ok _ => ⟨h2, .ok ix, [.localApply, .broadcastSend]⟩

/-- `API.DeleteIndex` from `api.go`: validate, delete locally, then
broadcast; a broadcast failure is returned without rollback. -/
def API.DeleteIndex (state : ClusterState) (h : Holder) (indexName : String)
    (bres : SendSyncResult) : OpOutcome Unit :=
  match validate state .apiDeleteIndex with
  | .error e => ⟨h, .error e, []⟩
  | .ok _ =>
    match h.DeleteIndex indexName with
    | .error e => ⟨h, .error e, []⟩
    | .ok h2 =>
      match bres with
      | .error msg => ⟨h2, .error (.broadcastFailed msg), [.localApply, .broadcastSend]⟩
      | .ok _ => ⟨h2, .ok (), [.localApply, .broadcastSend]⟩

/-- `API.CreateField` from `api.go`: validate, find the index, create the
field locally, then broadcast; a broadcast failure is returned without
rolling back the field creation. -/
def API.CreateField (state : ClusterState) (h : Holder) (indexName fieldName : String)
    (opt : FieldOptions) (bres : SendSyncResult) : OpOutcome Pilosa.Field :=
  match validate state .apiCreateField with
  | .error e => ⟨h, .error e, []⟩
  | .ok _ =>
    match h.Index indexName with
    | none => ⟨h, .error .indexNotFound, []⟩
    | some ix =>
      match ix.CreateField fieldName opt with
      | .error e => ⟨h, .error e, []⟩
      | .ok (f, ix2) =>
        let h2 : Holder := { h with indexes := mapSet h.indexes indexName ix2 }
        match bres with
        | .error msg => ⟨h2, .error (.broadcastFailed msg), [.localApply, .broadcastSend]⟩
        | .ok _ => ⟨h2, .ok f, [.localApply, .broadcastSend]⟩

/-- `API.DeleteField` from `api.go`: validate, find the index, delete the
field locally (a missing field is a successful no-op), then broadcast; a
broadcast failure is returned without rollback. -/
def API.DeleteField (state : ClusterState) (h : Holder) (indexName fieldName : String)
    (bres : SendSyncResult) : OpOutcome Unit :=
  match validate state .apiDeleteField with
  | .error e => ⟨h, .error e, []⟩
  | .ok _ =>
    match h.Index indexName with
    | none => ⟨h, .error .indexNotFound, []⟩
    | some ix =>
      match ix.DeleteField fieldName with
      | .error e => ⟨h, .error e, []⟩
      | .ok ix2 =>
        let h2 : Holder := { h with indexes := mapSet h.indexes indexName ix2 }
        match bres with
        | .error msg => ⟨h2, .error (.broadcastFailed msg), [.localApply, .broadcastSend]⟩
        | .ok _ => ⟨h2, .ok (), [.localApply, .broadcastSend]⟩

/-- `API.DeleteView` from `api.go`: validate, find the field, delete the
view locally (`ErrInvalidView` is ignored: views do not exist on every
node), then broadcast; the broadcast error, if any, is the returned
error, and the local deletion is not rolled back. -/
def API.DeleteView (state : ClusterState) (h : Holder) (indexName fieldName viewName : String)
    (bres : SendSyncResult) : OpOutcome Unit :=
  match validate state .apiDeleteView with
  | .error e => ⟨h, .error e, []⟩
  | .ok _ =>
    match h.Index indexName with
    | none => ⟨h, .error .fieldNotFound, []⟩
    | some ix =>
      match ix.Field fieldName with
      | none => ⟨h, .error .fieldNotFound, []⟩
      | some f =>
        match f.DeleteView viewName with
        | .error .invalidView =>
          match bres with
          | .error msg => ⟨h, .error (.broadcastFailed msg), [.broadcastSend]⟩
          | .ok _ => ⟨h, .ok (), [.broadcastSend]⟩
        | .error e => ⟨h, .error e, []⟩
        | .ok f2 =>
          let ix2 : Pilosa.Index := { ix with fields := mapSet ix.fields fieldName f2 }
          let h2 : Holder := { h with indexes := mapSet h.indexes indexName ix2 }
          match bres with
          | .error msg => ⟨h2, .error (.broadcastFailed msg), [.localApply, .broadcastSend]⟩
          | .ok _ => ⟨h2, .ok (), [.localApply, .broadcastSend]⟩

/-- `API.RecalculateCaches` from `api.go`: validate, broadcast FIRST, and
only if the broadcast succeeded recalculate the local caches. -/
def API.RecalculateCaches (state : ClusterState) (h : Holder)
    (bres : SendSyncResult) : OpOutcome Unit :=
  match validate state .apiRecalculateCaches with
  | .error e => ⟨h, .error e, []⟩
  | .ok _ =>
    match bres with
    | .error msg => ⟨h, .error (.broadcastFailed msg), [.broadcastSend]⟩
    | .ok _ => ⟨h.RecalculateCaches, .ok (), [.broadcastSend, .localApply]⟩

/-- Modelled from the spec: `cluster.go` is not under `src/`. The only
part of the Cluster the gated claims consume is the local node id and the
ownership predicate `ownsSlice(nodeID, index, slice)` (true iff the node
appears in `Owners(index, slice)`, §4.1); the ownership function is kept
abstract as a parameter of the model. -/
structure ClusterModel where
  nodeID : String
  owns : String → String → Nat → Bool

/-- `internal.ImportRequest`: parallel row-id/column-id/timestamp arrays
targeting one (index, field, slice). Timestamps are integer nanoseconds
since the Unix epoch. -/
structure ImportRequest where
  index : String
  field : String
  slice : Nat
  rowIDs : List Nat
  columnIDs : List Nat
  timestamps : List Int
  deriving DecidableEq, Repr

/-- `internal.ImportValueRequest`: parallel column-id/value arrays. -/
structure ImportValueRequest where
  index : String
  field : String
  slice : Nat
  columnIDs : List Nat
  values : List Int
  deriving DecidableEq, Repr

/-- `time.Unix(sec, nsec)` modelled as integer nanoseconds since the Unix
epoch. -/
def timeUnix (sec nsec : Int) : Int := sec * 1000000000 + nsec

/-- The timestamp-conversion loop of `API.Import` in `api.go`: a zero
timestamp stays a nil pointer (`none`); a non-zero one becomes
`time.Unix(0, ts)`. -/
def convertTimestamps (ts : List Int) : List (Option Int) :=
  ts.map (fun t => if t = 0 then none else some (timeUnix 0 t))

/-- The arguments handed to `field.Import` by `API.Import` (the callee is
in `field.go`, not under `src/`; the delegation record is the model of
the call). -/
structure ImportDelegation where
  field : Pilosa.Field
  rowIDs : List Nat
  columnIDs : List Nat
  timestamps : List (Option Int)
  deriving DecidableEq, Repr

/-- The arguments handed to `field.ImportValue` by `API.ImportValue`. -/
structure ImportValueDelegation where
  field : Pilosa.Field
  columnIDs : List Nat
  values : List Int
  deriving DecidableEq, Repr

/-- `API.indexField` from `api.go`: the slice-ownership check comes
first; only then are the index and the field looked up. -/
def API.indexField (c : ClusterModel) (h : Holder) (indexName fieldName : String)
    (slice : Nat) : Except ApiError (Pilosa.Index × Pilosa.Field) :=
  if !(c.owns c.nodeID indexName slice) then .error .clusterDoesNotOwnSlice
  else
    match h.Index indexName with
    | none => .error .indexNotFound
    | some ix =>
      match ix.Field fieldName with
      | none => .error .fieldNotFound
      | some f => .ok (ix, f)

/-- `API.Import` from `api.go`: validate, resolve the owning field via
`indexField`, convert the timestamps, and delegate to `field.Import`
with the parallel arrays. An error result means no local mutation was
performed (nothing was delegated to the field). -/
def API.Import (state : ClusterState) (c : ClusterModel) (h : Holder)
    (req : ImportRequest) : Except ApiError ImportDelegation :=
  match validate state .apiImport with
  | .error e => .error e
  | .ok _ =>
    match API.indexField c h req.index req.field req.slice with
    | .error e => .error e
    | .ok (_, f) =>
      .ok { field := f, rowIDs := req.rowIDs, columnIDs := req.columnIDs,
            timestamps := convertTimestamps req.timestamps }

/-- `API.ImportValue` from `api.go`: validate, resolve the owning field
via `indexField`, and delegate to `field.ImportValue`. -/
def API.ImportValue (state : ClusterState) (c : ClusterModel) (h : Holder)
    (req : ImportValueRequest) : Except ApiError ImportValueDelegation :=
  match validate state .apiImportValue with
  | .error e => .error e
  | .ok _ =>
    match API.indexField c h req.index req.field req.slice with
    | .error e => .error e
    | .ok (_, f) =>
      .ok { field := f, columnIDs := req.columnIDs, values := req.values }

/-- One CSV line written by `API.ExportCSV`: row id, comma, column id,
newline. -/
def csvLine (rowID columnID : Nat) : String :=
  toString rowID ++ "," ++ toString columnID ++ "\n"

/-- `API.ExportCSV` from `api.go`: validate, check slice ownership, find
the fragment, then stream every bit as a CSV line. The written output is
returned; an error result means nothing was written and nothing was
mutated. -/
def API.ExportCSV (state : ClusterState) (c : ClusterModel) (h : Holder)
    (indexName fieldName : String) (slice : Nat) : Except ApiError String :=
  match validate state .apiExportCSV with
  | .error e => .error e
  | .ok _ =>
    if !(c.owns c.nodeID indexName slice) then .error .clusterDoesNotOwnSlice
    else
      match h.Fragment indexName fieldName slice with
      | none => .error .fragmentNotFound
      | some frag =>
        .ok (frag.foldl (fun acc bit => acc ++ csvLine bit.1 bit.2) "")

/-- `API.IndexAttrDiff` from `api.go`: validate, find the index, compute
the block diff of the local column attribute store against the supplied
remote summary, and merge the local data of every differing block into
the result map. -/
def API.IndexAttrDiff (state : ClusterState) (h : Holder) (indexName : String)
    (cks : AttrStoreData → Nat) (blocks : List AttrBlock) :
    Except ApiError (Nat → Option Attrs) :=
  match validate state .apiIndexAttrDiff with
  | .error e => .error e
  | .ok _ =>
    match h.Index indexName with
    | none => .error .indexNotFound
    | some ix =>
      .ok (attrDiffMerge ix.columnAttrStore
            (AttrBlocks.Diff (Blocks cks ix.columnAttrStore) blocks))

/-- `API.FieldAttrDiff` from `api.go`: identical to `API.IndexAttrDiff`
but over the row attribute store of the field. -/
def API.FieldAttrDiff (state : ClusterState) (h : Holder)
    (indexName fieldName : String) (cks : AttrStoreData → Nat)
    (blocks : List AttrBlock) : Except ApiError (Nat → Option Attrs) :=
  match validate state .apiFieldAttrDiff with
  | .error e => .error e
  | .ok _ =>
    match h.Field indexName fieldName with
    | none => .error .fieldNotFound
    | some f =>
      .ok (attrDiffMerge f.rowAttrStore
            (AttrBlocks.Diff (Blocks cks f.rowAttrStore) blocks))

/-- Decidable equality for `Except`, needed to decide statements about the
embedded operations. -/
instance {e a : Type} [DecidableEq e] [DecidableEq a] : DecidableEq (Except e a) := fun x y =>
  match x, y with
  | .ok v, .ok w => decidable_of_iff (v = w) (by simp)
  | .error v, .error w => decidable_of_iff (v = w) (by simp)
  | .ok _, .error _ => .isFalse (fun h => by simp at h)
  | .error _, .ok _ => .isFalse (fun h => by simp at h)

/-- C1: for every cluster state S and api method M, `validate(M)` in
state S succeeds iff M is in the union of the common method set and the
state-specific method set of S; when it fails, the error is a
method-not-allowed error carrying both the method and the state, whose
message names both. -/
theorem validate_iff_common_union_state :
    ∀ (s : ClusterState) (f : ApiMethod),
      (validate s f = .ok () ↔ f ∈ appendMap methodsCommon (specStateSet s)) ∧
      (validate s f = .ok () ∨ validate s f = .error (.methodNotAllowed f s)) ∧
      (ApiError.methodNotAllowed f s).message =
        "api method " ++ apiMethodName f ++ " not allowed in state " ++ clusterStateName s := by
  decide

/-- C2: the common method set is exactly receiving a cluster message,
returning a fragment snapshot, and coordinator handoff; the
RESIZING-specific set is exactly resize-abort; hence in RESIZING exactly
those four methods validate and every other method (Query included) is
rejected with a method-not-allowed error. -/
theorem resizing_allows_exactly_four :
    (∀ f : ApiMethod, f ∈ methodsCommon ↔
      (f = .apiClusterMessage ∨ f = .apiMarshalFragment ∨ f = .apiSetCoordinator)) ∧
    (∀ f : ApiMethod, f ∈ methodsResizing ↔ f = .apiResizeAbort) ∧
    (∀ f : ApiMethod, validate .resizing f = .ok () ↔
      (f = .apiClusterMessage ∨ f = .apiMarshalFragment ∨ f = .apiSetCoordinator ∨
        f = .apiResizeAbort)) ∧
    validate .resizing .apiQuery =
      .error (.methodNotAllowed .apiQuery .resizing) := by
  decide

/-- C3 counterexample: `API.RecalculateCaches` attempts the broadcast
BEFORE the local mutation; with a failing broadcaster it returns an error
having performed no local mutation at all (trace holds only the
broadcast, the holder is unchanged), refuting the claim that every listed
metadata-mutating operation applies its local mutation before the
broadcast is attempted. -/
theorem recalculateCaches_broadcast_first_cx :
    API.RecalculateCaches .normal ({} : Holder) (.error "network down") =
      ⟨{}, .error (.broadcastFailed "network down"), [.broadcastSend]⟩ := rfl

/-- C3 (amended): for CreateIndex, DeleteIndex, CreateField, DeleteField
and DeleteView the local mutation is applied before the broadcast is
attempted, and a broadcast failure after a successful local mutation is
returned as an error without rolling the mutation back; RecalculateCaches
instead broadcasts first and recalculates locally only when the broadcast
succeeded, so its broadcast failure leaves the local state untouched. -/
theorem mutation_local_first_no_rollback :
    (∀ (h : Holder) (n msg : String) (h2 : Holder) (ix : Pilosa.Index),
      h.CreateIndex n = .ok (h2, ix) →
      API.CreateIndex .normal h n (.error msg) =
        ⟨h2, .error (.broadcastFailed msg), [.localApply, .broadcastSend]⟩) ∧
    (∀ (h : Holder) (n msg : String) (h2 : Holder),
      h.DeleteIndex n = .ok h2 →
      API.DeleteIndex .normal h n (.error msg) =
        ⟨h2, .error (.broadcastFailed msg), [.localApply, .broadcastSend]⟩) ∧
    (∀ (h : Holder) (iname fname msg : String) (opt : FieldOptions)
        (ix : Pilosa.Index) (f : Pilosa.Field) (ix2 : Pilosa.Index),
      h.Index iname = some ix → ix.CreateField fname opt = .ok (f, ix2) →
      API.CreateField .normal h iname fname opt (.error msg) =
        ⟨{ h with indexes := mapSet h.indexes iname ix2 },
          .error (.broadcastFailed msg), [.localApply, .broadcastSend]⟩) ∧
    (∀ (h : Holder) (iname fname msg : String) (ix ix2 : Pilosa.Index),
      h.Index iname = some ix → ix.DeleteField fname = .ok ix2 →
      API.DeleteField .normal h iname fname (.error msg) =
        ⟨{ h with indexes := mapSet h.indexes iname ix2 },
          .error (.broadcastFailed msg), [.localApply, .broadcastSend]⟩) ∧
    (∀ (h : Holder) (iname fname vname msg : String)
        (ix : Pilosa.Index) (f f2 : Pilosa.Field),
      h.Index iname = some ix → ix.Field fname = some f →
      f.DeleteView vname = .ok f2 →
      API.DeleteView .normal h iname fname vname (.error msg) =
        ⟨{ h with indexes :=
                    mapSet h.indexes iname
                      ({ ix with fields := mapSet ix.fields fname f2 }) },
          .error (.broadcastFailed msg), [.localApply, .broadcastSend]⟩) ∧
    (∀ (h : Holder) (msg : String),
      API.RecalculateCaches .normal h (.error msg) =
        ⟨h, .error (.broadcastFailed msg), [.broadcastSend]⟩ ∧
      API.RecalculateCaches .normal h (.ok ()) =
        ⟨h.RecalculateCaches, .ok (), [.broadcastSend, .localApply]⟩) := by
  refine ⟨?_, ?_, ?_, ?_, ?_, ?_⟩
  · intro h n msg h2 ix hlocal
    have hv : validate ClusterState.normal ApiMethod.apiCreateIndex = .ok () := rfl
    simp only [API.CreateIndex, hv, hlocal]
  · intro h n msg h2 hlocal
    have hv : validate ClusterState.normal ApiMethod.apiDeleteIndex = .ok () := rfl
    simp only [API.DeleteIndex, hv, hlocal]
  · intro h iname fname msg opt ix f ix2 hix hlocal
    have hv : validate ClusterState.normal ApiMethod.apiCreateField = .ok () := rfl
    simp only [API.CreateField, hv, hix, hlocal]
  · intro h iname fname msg ix ix2 hix hlocal
    have hv : validate ClusterState.normal ApiMethod.apiDeleteField = .ok () := rfl
    simp only [API.DeleteField, hv, hix, hlocal]
  · intro h iname fname vname msg ix f f2 hix hf hlocal
    have hv : validate ClusterState.normal ApiMethod.apiDeleteView = .ok () := rfl
    simp only [API.DeleteView, hv, hix, hf, hlocal]
  · intro h msg
    exact ⟨rfl, rfl⟩

/-- A sample index with no fields, used to instantiate the theorems. -/
def ixEmpty : Pilosa.Index := { path := "i", name := "i" }

/-- A sample field holding the standard view. -/
def fldStd : Pilosa.Field :=
  { path := "i/f", indexName := "i", name := "f", views := ["standard"] }

/-- A sample index holding `fldStd` under name "f". -/
def ixWithField : Pilosa.Index :=
  { path := "i", name := "i", fields := [("f", fldStd)], dirs := ["i/f"] }

/-- A sample holder with one empty index "i". -/
def holderEmptyIx : Holder := { indexes := [("i", ixEmpty)] }

/-- A sample holder whose index "i" holds the field "f". -/
def holderWithField : Holder := { indexes := [("i", ixWithField)] }

/-- C3 witness: the amended theorem applied at concrete inputs. -/
theorem mutation_local_first_no_rollback_witness :
    API.CreateIndex .normal {} "i" (.error "x") =
      ⟨{ indexes := [("i", ixEmpty)] }, .error (.broadcastFailed "x"),
        [.localApply, .broadcastSend]⟩ ∧
    API.DeleteIndex .normal holderWithField "i" (.error "x") =
      ⟨{ indexes := [] }, .error (.broadcastFailed "x"),
        [.localApply, .broadcastSend]⟩ ∧
    API.CreateField .normal holderEmptyIx "i" "f" {} (.error "x") =
      ⟨{ indexes :=
                [("i", { path := "i", name := "i",
                         fields := [("f", { path := "i/f", indexName := "i", name := "f" })],
                         dirs := ["i/f"] })] },
        .error (.broadcastFailed "x"), [.localApply, .broadcastSend]⟩ ∧
    API.DeleteField .normal holderWithField "i" "f" (.error "x") =
      ⟨{ indexes := [("i", { path := "i", name := "i", closedFields := ["f"] })] },
        .error (.broadcastFailed "x"), [.localApply, .broadcastSend]⟩ ∧
    API.DeleteView .normal holderWithField "i" "f" "standard" (.error "x") =
      ⟨{ indexes :=
                [("i", { path := "i", name := "i",
                         fields := [("f", { path := "i/f", indexName := "i", name := "f" })],
                         dirs := ["i/f"] })] },
        .error (.broadcastFailed "x"), [.localApply, .broadcastSend]⟩ ∧
    API.RecalculateCaches .normal {} (.ok ()) =
      ⟨{ recalcCount := 1 }, .ok (), [.broadcastSend, .localApply]⟩ := by
  refine ⟨?_, ?_, ?_, ?_, ?_, ?_⟩
  · exact mutation_local_first_no_rollback.1 {} "i" "x" _ _ rfl
  · exact mutation_local_first_no_rollback.2.1 holderWithField "i" "x" _ rfl
  · exact mutation_local_first_no_rollback.2.2.1 holderEmptyIx "i" "f" "x" {} _ _ _ rfl rfl
  · exact mutation_local_first_no_rollback.2.2.2.1 holderWithField "i" "f" "x" _ _ rfl rfl
  · exact mutation_local_first_no_rollback.2.2.2.2.1 holderWithField "i" "f" "standard" "x" _ _ _ rfl rfl rfl
  · exact (mutation_local_first_no_rollback.2.2.2.2.2 {} "x").2

/-- C4: for Import, ImportValue and ExportCSV, when the local node does
not own the target slice the call fails with `ErrClusterDoesNotOwnSlice`
and no local mutation is performed (the error result means nothing was
delegated to the field and nothing was written); the statement holds for
EVERY holder — in particular for holders in which the index or field does
not even exist — which is exactly the source's ordering of the ownership
check before the index and field lookups. -/
theorem not_owner_rejected_before_lookup :
    (∀ (c : ClusterModel) (h : Holder) (req : ImportRequest),
      c.owns c.nodeID req.index req.slice = false →
      API.Import .normal c h req = .error .clusterDoesNotOwnSlice) ∧
    (∀ (c : ClusterModel) (h : Holder) (req : ImportValueRequest),
      c.owns c.nodeID req.index req.slice = false →
      API.ImportValue .normal c h req = .error .clusterDoesNotOwnSlice) ∧
    (∀ (c : ClusterModel) (h : Holder) (iname fname : String) (slice : Nat),
      c.owns c.nodeID iname slice = false →
      API.ExportCSV .normal c h iname fname slice = .error .clusterDoesNotOwnSlice) := by
  refine ⟨?_, ?_, ?_⟩
  · intro c h req hown
    have hv : validate ClusterState.normal ApiMethod.apiImport = .ok () := rfl
    simp only [API.Import, API.indexField, hv, hown, Bool.not_false, if_true]
  · intro c h req hown
    have hv : validate ClusterState.normal ApiMethod.apiImportValue = .ok () := rfl
    simp only [API.ImportValue, API.indexField, hv, hown, Bool.not_false, if_true]
  · intro c h iname fname slice hown
    have hv : validate ClusterState.normal ApiMethod.apiExportCSV = .ok () := rfl
    simp only [API.ExportCSV, hv, hown, Bool.not_false, if_true]

/-- A cluster model that owns no slice, used to instantiate theorems. -/
def clusterOwnsNothing : ClusterModel :=
  { nodeID := "node0", owns := fun _ _ _ => false }

/-- C4 witness: the theorem applied at concrete inputs, with a holder
that does not even contain the requested index. -/
theorem not_owner_rejected_before_lookup_witness :
    API.Import .normal clusterOwnsNothing {}
        { index := "i", field := "f", slice := 3,
          rowIDs := [1], columnIDs := [2], timestamps := [0] } =
      .error .clusterDoesNotOwnSlice ∧
    API.ImportValue .normal clusterOwnsNothing {}
        { index := "i", field := "f", slice := 3,
          columnIDs := [2], values := [9] } =
      .error .clusterDoesNotOwnSlice ∧
    API.ExportCSV .normal clusterOwnsNothing {} "i" "f" 3 =
      .error .clusterDoesNotOwnSlice := by
  refine ⟨?_, ?_, ?_⟩
  · exact not_owner_rejected_before_lookup.1 clusterOwnsNothing {} _ rfl
  · exact not_owner_rejected_before_lookup.2.1 clusterOwnsNothing {} _ rfl
  · exact not_owner_rejected_before_lookup.2.2 clusterOwnsNothing {} "i" "f" 3 rfl

/-- C7: a successful `API.Import` delegates to `field.Import` the row-id
and column-id arrays unchanged together with the converted timestamp
array, whose entry at every position i is nil (`none`) when the request
timestamp is zero and `time.Unix(0, ts)` otherwise — a time value of
exactly ts nanoseconds since the Unix epoch (`timeUnix 0 ts = ts`). -/
theorem import_timestamp_conversion :
    ∀ (c : ClusterModel) (h : Holder) (req : ImportRequest) (d : ImportDelegation),
      API.Import .normal c h req = .ok d →
      d.rowIDs = req.rowIDs ∧ d.columnIDs = req.columnIDs ∧
      d.timestamps.length = req.timestamps.length ∧
      (∀ i : Nat, d.timestamps[i]? =
        (req.timestamps[i]?).map (fun ts => if ts = 0 then none else some (timeUnix 0 ts))) ∧
      (∀ ts : Int, timeUnix 0 ts = ts) := by
  intro c h req d hd
  have hv : validate ClusterState.normal ApiMethod.apiImport = .ok () := rfl
  simp only [API.Import, hv] at hd
  cases hif : API.indexField c h req.index req.field req.slice with
  | error e => rw [hif] at hd; cases hd
  | ok p =>
    rw [hif] at hd
    cases hd
    refine ⟨rfl, rfl, ?_, ?_, ?_⟩
    · simp [convertTimestamps]
    · intro i
      simp [convertTimestamps, List.getElem?_map]
    · intro ts
      simp [timeUnix]

/-- A cluster model owning every slice. -/
def clusterOwnsAll : ClusterModel :=
  { nodeID := "node0", owns := fun _ _ _ => true }

/-- C7 witness: a concrete import through a holder that has the index
and field, with timestamps [0, 7]. -/
theorem import_timestamp_conversion_witness :
    (API.Import .normal clusterOwnsAll holderWithField
        { index := "i", field := "f", slice := 3,
          rowIDs := [1, 2], columnIDs := [4, 5], timestamps := [0, 7] } =
      .ok { field := fldStd, rowIDs := [1, 2], columnIDs := [4, 5],
            timestamps := [none, some 7] }) ∧
    ({ field := fldStd, rowIDs := [1, 2], columnIDs := [4, 5],
       timestamps := [none, some 7] } : ImportDelegation).timestamps[0]? = some none ∧
    ({ field := fldStd, rowIDs := [1, 2], columnIDs := [4, 5],
       timestamps := [none, some 7] } : ImportDelegation).timestamps[1]? = some (some 7) := by
  have hrun : API.Import .normal clusterOwnsAll holderWithField
      { index := "i", field := "f", slice := 3,
        rowIDs := [1, 2], columnIDs := [4, 5], timestamps := [0, 7] } =
      .ok { field := fldStd, rowIDs := [1, 2], columnIDs := [4, 5],
            timestamps := [none, some 7] } := by decide
  have hconv := (import_timestamp_conversion clusterOwnsAll holderWithField _ _ hrun).2.2.2.1
  exact ⟨hrun, hconv 0, hconv 1⟩

/-- Deleting a key removes it from the map. -/
theorem mapGet_mapDelete_self {κ α : Type} [DecidableEq κ] (m : List (κ × α)) (k : κ) :
    mapGet (mapDelete m k) k = none := by
  unfold mapGet mapDelete
  rw [Option.map_eq_none', List.find?_eq_none]
  intro kv hkv
  rcases List.mem_filter.mp hkv with ⟨_, hne⟩
  simp at hne ⊢
  exact hne

/-- Deleting a key leaves every other key untouched. -/
theorem mapGet_mapDelete_ne {κ α : Type} [DecidableEq κ] (m : List (κ × α)) (k n : κ)
    (hne : n ≠ k) : mapGet (mapDelete m k) n = mapGet m n := by
  induction m with
  | nil => rfl
  | cons kv t ih =>
    unfold mapGet mapDelete at ih ⊢
    by_cases hk : kv.1 = k
    · simp only [List.filter_cons, hk]
      simp only [decide_not, decide_eq_true_eq] at *
      rw [if_neg (by simp)]
      rw [ih]
      have : ¬ kv.1 = n := by rw [hk]; exact fun hcontra => hne hcontra.symm
      simp [List.find?, this]
    · simp only [List.filter_cons]
      rw [if_pos (by simp [hk])]
      by_cases hkn : kv.1 = n
      · simp [List.find?, hkn]
      · simp only [List.find?]
        rw [show (decide (kv.1 = n)) = false by simp [hkn]]
        exact ih

/-- C5: `Index.CreateField` on an existing name fails with
`ErrFieldExists` (returning no new registry state), while
`Index.CreateFieldIfNotExists` on an existing name returns the existing
field and the index unchanged, without applying the supplied options. -/
theorem createField_existing_name :
    ∀ (i : Pilosa.Index) (name : String) (f : Pilosa.Field) (opt : FieldOptions),
      mapGet i.fields name = some f →
      i.CreateField name opt = .error .fieldExists ∧
      i.CreateFieldIfNotExists name opt = .ok (f, i) := by
  intro i name f opt hf
  constructor
  · unfold Index.CreateField
    rw [if_pos (by rw [hf]; exact fun hcontra => Option.noConfusion hcontra)]
  · unfold Index.CreateFieldIfNotExists
    rw [hf]

/-- C5 witness: applied to the sample index whose registry holds "f",
with options that differ from the registered field's options. -/
theorem createField_existing_name_witness :
    ixWithField.CreateField "f" { cacheType := "ranked" } = .error .fieldExists ∧
    ixWithField.CreateFieldIfNotExists "f" { cacheType := "ranked" } =
      .ok (fldStd, ixWithField) :=
  createField_existing_name ixWithField "f" fldStd { cacheType := "ranked" } rfl

/-- C6: `Index.DeleteField` on an absent name returns no error and leaves
the index (registry included) unchanged; on a present name it returns no
error, closes the field, removes its on-disk directory, drops exactly its
registry entry, and leaves every other entry untouched. -/
theorem deleteField_semantics :
    ∀ (i : Pilosa.Index) (name : String),
      (mapGet i.fields name = none → i.DeleteField name = .ok i) ∧
      (∀ f, mapGet i.fields name = some f →
        ∃ i2, i.DeleteField name = .ok i2 ∧
          mapGet i2.fields name = none ∧
          i.FieldPath name ∉ i2.dirs ∧
          i2.closedFields = i.closedFields ++ [name] ∧
          (∀ n2, n2 ≠ name → mapGet i2.fields n2 = mapGet i.fields n2)) := by
  intro i name
  constructor
  · intro habsent
    unfold Index.DeleteField
    rw [habsent]
  · intro f hf
    refine ⟨{ i with
                fields := mapDelete i.fields name,
                dirs := i.dirs.filter (fun d => decide (¬ d = i.FieldPath name)),
                closedFields := i.closedFields ++ [name] }, ?_, ?_, ?_, rfl, ?_⟩
    · unfold Index.DeleteField
      rw [hf]
    · exact mapGet_mapDelete_self i.fields name
    · intro hmem
      rcases List.mem_filter.mp hmem with ⟨_, hne⟩
      simp at hne
    · intro n2 hne
      exact mapGet_mapDelete_ne i.fields name n2 hne

/-- C6 witness: deleting the absent field "g" is a no-op; deleting the
present field "f" empties the registry, removes the directory, and logs
the close. -/
theorem deleteField_semantics_witness :
    ixWithField.DeleteField "g" = .ok ixWithField ∧
    (∃ i2, ixWithField.DeleteField "f" = .ok i2 ∧
      mapGet i2.fields "f" = none ∧
      ixWithField.FieldPath "f" ∉ i2.dirs ∧
      i2.closedFields = ixWithField.closedFields ++ ["f"] ∧
      (∀ n2, n2 ≠ "f" → mapGet i2.fields n2 = mapGet ixWithField.fields n2)) :=
  ⟨(deleteField_semantics ixWithField "g").1 rfl,
   (deleteField_semantics ixWithField "f").2 fldStd rfl⟩

/-- C9: `NewIndex` (and hence index creation in the holder) rejects any
name failing the name-validity check before registering anything, and
`Index.CreateField` on a fresh name with default cache options rejects an
invalid field name with a validation error (an empty name with the
name-required error, a name with disallowed characters with the
invalid-name error); the error return means no index or field was
registered. -/
theorem invalid_name_rejected :
    (∀ (path name : String) (e : ApiError),
      ValidateName name = .error e → NewIndex path name = .error e) ∧
    (∀ (h : Holder) (name : String) (e : ApiError),
      mapGet h.indexes name = none → ValidateName name = .error e →
      h.CreateIndex name = .error e) ∧
    (∀ (i : Pilosa.Index) (name : String) (opt : FieldOptions),
      mapGet i.fields name = none → opt.cacheType = "" →
      ValidateName name ≠ .ok () →
      (i.CreateField name opt = .error .nameRequired ∨
       i.CreateField name opt = .error .invalidName)) ∧
    ValidateName "" = .error .invalidName := by
  refine ⟨?_, ?_, ?_, rfl⟩
  · intro path name e hval
    unfold NewIndex
    rw [hval]
  · intro h name e habsent hval
    unfold Holder.CreateIndex NewIndex
    rw [habsent, hval]
    simp
  · intro i name opt habsent hcache hnotok
    unfold Index.CreateField
    rw [habsent]
    simp only [ne_eq, not_true_eq_false, if_false]
    by_cases hn : name = ""
    · left
      unfold Index.createField
      rw [if_pos hn]
    · right
      have hvn : ValidateName name = .error .invalidName := by
        unfold ValidateName at hnotok ⊢
        rw [if_neg hn] at hnotok ⊢
        by_cases hall : name.toList.all validNameChar = true
        · exact absurd (by rw [if_pos hall]) hnotok
        · rw [if_neg hall]
      unfold Index.createField NewField
      rw [if_neg hn, hcache, hvn]
      simp [FieldOptions.Validate]

/-- C9 witness: the invalid name "Bad" (upper-case characters are
disallowed) and the empty name, at concrete holder and index states. -/
theorem invalid_name_rejected_witness :
    NewIndex "p" "Bad" = .error .invalidName ∧
    ({} : Holder).CreateIndex "Bad" = .error .invalidName ∧
    (ixEmpty.CreateField "Bad" {} = .error .nameRequired ∨
     ixEmpty.CreateField "Bad" {} = .error .invalidName) ∧
    ValidateName "" = .error .invalidName :=
  ⟨invalid_name_rejected.1 "p" "Bad" .invalidName (by decide),
   invalid_name_rejected.2.1 {} "Bad" .invalidName rfl (by decide),
   invalid_name_rejected.2.2.1 ixEmpty "Bad" {} rfl rfl (by decide),
   invalid_name_rejected.2.2.2⟩

/-- The strict version of the field ordering, used to show sortedness
pins down a unique output list. -/
def fieldLt (a b : Pilosa.Field) : Prop := a.name < b.name

instance : IsTotal Pilosa.Field fieldLe :=
  ⟨fun a b => le_total a.name b.name⟩

instance : IsTrans Pilosa.Field fieldLe :=
  ⟨fun _ _ _ hab hbc => le_trans hab hbc⟩

instance : IsAntisymm Pilosa.Field fieldLt :=
  ⟨fun _ _ hab hba => absurd hba (lt_asymm hab)⟩

/-- A list of fields sorted by name-order with pairwise-distinct names is
sorted in the strict name-order. -/
theorem sorted_le_of_nodup_names_sorted_lt (l : List Pilosa.Field)
    (hs : List.Sorted fieldLe l) (hnd : (l.map Pilosa.Field.name).Nodup) :
    List.Sorted fieldLt l := by
  have hne : l.Pairwise (fun a b : Pilosa.Field => a.name ≠ b.name) :=
    (List.pairwise_map).mp hnd
  exact (hs.and hne).imp (fun h => lt_of_le_of_ne h.1 h.2)

/-- C10: `Index.Fields` returns a permutation of the registry values that
is sorted ascending by field name; for registries with distinct field
names the output is independent of registration order (any two registries
holding the same fields yield the same sorted list); `encodeIndex`
exposes exactly this sorted order. -/
theorem fields_sorted_by_name :
    ∀ (i : Pilosa.Index),
      i.Fields.Perm (i.fields.map Prod.snd) ∧
      List.Sorted fieldLe i.Fields ∧
      (∀ j : Pilosa.Index,
        ((i.fields.map Prod.snd).map Pilosa.Field.name).Nodup →
        (i.fields.map Prod.snd).Perm (j.fields.map Prod.snd) →
        i.Fields = j.Fields) ∧
      encodeIndex i = { name := i.name, fields := encodeFields i.Fields } := by
  intro i
  refine ⟨List.perm_insertionSort _ _, List.sorted_insertionSort _ _, ?_, rfl⟩
  intro j hnd hperm
  have pi : i.Fields.Perm (i.fields.map Prod.snd) := List.perm_insertionSort _ _
  have pj : j.Fields.Perm (j.fields.map Prod.snd) := List.perm_insertionSort _ _
  have pij : i.Fields.Perm j.Fields := (pi.trans hperm).trans pj.symm
  have hndi : (i.Fields.map Pilosa.Field.name).Nodup :=
    ((pi.map Pilosa.Field.name).nodup_iff).mpr hnd
  have hndj : (j.Fields.map Pilosa.Field.name).Nodup :=
    ((pj.map Pilosa.Field.name).nodup_iff).mpr (((hperm.map Pilosa.Field.name).nodup_iff).mp hnd)
  exact List.eq_of_perm_of_sorted pij
    (sorted_le_of_nodup_names_sorted_lt _ (List.sorted_insertionSort _ _) hndi)
    (sorted_le_of_nodup_names_sorted_lt _ (List.sorted_insertionSort _ _) hndj)

/-- A sample field named "a". -/
def fldA : Pilosa.Field := { path := "i/a", indexName := "i", name := "a" }

/-- A sample field named "b". -/
def fldB : Pilosa.Field := { path := "i/b", indexName := "i", name := "b" }

/-- The sample index registering "a" before "b". -/
def ixAB : Pilosa.Index := { path := "i", name := "i", fields := [("a", fldA), ("b", fldB)] }

/-- The sample index registering "b" before "a". -/
def ixBA : Pilosa.Index := { path := "i", name := "i", fields := [("b", fldB), ("a", fldA)] }

/-- C10 witness: the two registration orders produce the same sorted
field list. -/
theorem fields_sorted_by_name_witness :
    ixBA.Fields = ixAB.Fields ∧ List.Sorted fieldLe ixBA.Fields :=
  ⟨(fields_sorted_by_name ixBA).2.2.1 ixAB (by decide) (by decide),
   (fields_sorted_by_name ixBA).2.1⟩

/-- Keys of an association list: membership as an existential. -/
theorem mem_keys_iff {m : AttrStoreData} {k : Nat} :
    k ∈ m.map Prod.fst ↔ ∃ v, (k, v) ∈ m := by
  constructor
  · intro hk
    rcases List.mem_map.mp hk with ⟨kv, hmem, hfst⟩
    exact ⟨kv.2, by rwa [show ((k, kv.2) : Nat × Attrs) = kv from Prod.ext hfst.symm rfl]⟩
  · rintro ⟨v, hv⟩
    exact List.mem_map.mpr ⟨(k, v), hv, rfl⟩

/-- With pairwise-distinct keys, `mapGet` agrees with membership. -/
theorem mapGet_eq_some_iff (m : AttrStoreData)
    (hnd : (m.map Prod.fst).Nodup) (k : Nat) (v : Attrs) :
    mapGet m k = some v ↔ (k, v) ∈ m := by
  induction m with
  | nil => simp [mapGet]
  | cons kv t ih =>
    rw [List.map_cons, List.nodup_cons] at hnd
    unfold mapGet at ih ⊢
    by_cases hk : kv.1 = k
    · have hd : decide (kv.1 = k) = true := decide_eq_true hk
      simp only [List.find?, hd, Option.map_some']
      constructor
      · intro hv
        rw [show kv = (k, v) from Prod.ext hk (Option.some.inj hv)]
        exact List.mem_cons_self _ _
      · intro hmem
        rcases List.mem_cons.mp hmem with heq | hmemt
        · rw [← heq]
        · exact absurd (mem_keys_iff.mpr ⟨v, hmemt⟩) (hk ▸ hnd.1)
    · have hd : decide (kv.1 = k) = false := decide_eq_false hk
      simp only [List.find?, hd]
      rw [ih hnd.2]
      constructor
      · exact fun hmemt => List.mem_cons_of_mem _ hmemt
      · intro hmem
        rcases List.mem_cons.mp hmem with heq | hmemt
        · exact absurd (congrArg Prod.fst heq).symm hk
        · exact hmemt

/-- Copying a block into the result map does not touch keys outside the
block contents. -/
theorem attrUpd_not_mem (l : AttrStoreData) (acc : Nat → Option Attrs) (k : Nat)
    (hk : k ∉ l.map Prod.fst) :
    (l.foldl (fun (a : Nat → Option Attrs) kv => Function.update a kv.1 (some kv.2)) acc) k = acc k := by
  induction l generalizing acc with
  | nil => rfl
  | cons kv t ih =>
    rw [List.map_cons, List.mem_cons] at hk
    push_neg at hk
    rw [List.foldl_cons, ih _ hk.2]
    exact Function.update_noteq hk.1 _ _

/-- Copying a block with pairwise-distinct keys sets every contained
entry in the result map. -/
theorem attrUpd_mem (l : AttrStoreData) (acc : Nat → Option Attrs) (k : Nat) (v : Attrs)
    (hnd : (l.map Prod.fst).Nodup) (hmem : (k, v) ∈ l) :
    (l.foldl (fun (a : Nat → Option Attrs) kv => Function.update a kv.1 (some kv.2)) acc) k = some v := by
  induction l generalizing acc with
  | nil => cases hmem
  | cons kv t ih =>
    rw [List.map_cons, List.nodup_cons] at hnd
    rw [List.foldl_cons]
    rcases List.mem_cons.mp hmem with heq | hmemt
    · rw [attrUpd_not_mem _ _ _ (by rw [← heq] at hnd; exact hnd.1)]
      rw [← heq]
      exact Function.update_same _ _ _
    · exact ih _ hnd.2 hmemt

/-- Block contents have pairwise-distinct keys whenever the store does. -/
theorem blockData_nodup (store : AttrStoreData) (b : Nat)
    (hnd : (store.map Prod.fst).Nodup) :
    ((BlockData store b).map Prod.fst).Nodup :=
  List.Nodup.sublist (List.Sublist.map _ (List.filter_sublist _)) hnd

/-- Membership in a block's contents. -/
theorem mem_blockData {store : AttrStoreData} {b k : Nat} {v : Attrs} :
    (k, v) ∈ BlockData store b ↔ ((k, v) ∈ store ∧ blockOf k = b) := by
  unfold BlockData
  rw [List.mem_filter]
  simp

/-- The merge loop, generalized over its accumulator: a key is carried
from the local store exactly when its block is in the id list and the key
is present; all other keys keep the accumulator value. -/
theorem attrDiffMerge_go (store : AttrStoreData)
    (hnd : (store.map Prod.fst).Nodup) (ids : List Nat) :
    ∀ (acc : Nat → Option Attrs) (k : Nat),
      (ids.foldl
        (fun acc2 b => (BlockData store b).foldl
          (fun (a : Nat → Option Attrs) kv => Function.update a kv.1 (some kv.2)) acc2) acc) k =
      if blockOf k ∈ ids ∧ k ∈ store.map Prod.fst then mapGet store k else acc k := by
  induction ids with
  | nil => intro acc k; simp
  | cons b t ih =>
    intro acc k
    rw [List.foldl_cons, ih]
    by_cases hmem : k ∈ store.map Prod.fst
    · by_cases hb : blockOf k = b
      · obtain ⟨v, hv⟩ := mem_keys_iff.mp hmem
        have hmg : mapGet store k = some v := (mapGet_eq_some_iff store hnd k v).mpr hv
        have hinner : ((BlockData store b).foldl
            (fun (a : Nat → Option Attrs) kv => Function.update a kv.1 (some kv.2)) acc) k = some v :=
          attrUpd_mem _ _ _ _ (blockData_nodup store b hnd) (mem_blockData.mpr ⟨hv, hb⟩)
        by_cases ht : blockOf k ∈ t
        · rw [if_pos ⟨ht, hmem⟩, if_pos ⟨List.mem_cons_of_mem _ ht, hmem⟩]
        · rw [if_neg (fun hc => ht hc.1), hinner,
            if_pos ⟨List.mem_cons.mpr (Or.inl hb), hmem⟩, hmg]
      · have hinner : ((BlockData store b).foldl
            (fun (a : Nat → Option Attrs) kv => Function.update a kv.1 (some kv.2)) acc) k = acc k := by
          refine attrUpd_not_mem _ _ _ (fun hc => ?_)
          obtain ⟨v, hv⟩ := mem_keys_iff.mp hc
          exact hb (mem_blockData.mp hv).2
        by_cases ht : blockOf k ∈ t
        · rw [if_pos ⟨ht, hmem⟩, if_pos ⟨List.mem_cons_of_mem _ ht, hmem⟩]
        · rw [if_neg (fun hc => ht hc.1), hinner,
            if_neg (fun hc => (List.mem_cons.mp hc.1).elim hb ht)]
    · have hinner : ((BlockData store b).foldl
          (fun (a : Nat → Option Attrs) kv => Function.update a kv.1 (some kv.2)) acc) k = acc k := by
        refine attrUpd_not_mem _ _ _ (fun hc => ?_)
        obtain ⟨v, hv⟩ := mem_keys_iff.mp hc
        exact hmem (mem_keys_iff.mpr ⟨v, (mem_blockData.mp hv).1⟩)
      rw [if_neg (fun hc => hmem hc.2), hinner, if_neg (fun hc => hmem hc.2)]

/-- The merged result holds a key/value exactly when the key's block is
in the diffed id list and the pair is in the local store. -/
theorem attrDiffMerge_spec (store : AttrStoreData)
    (hnd : (store.map Prod.fst).Nodup) (ids : List Nat) (k : Nat) (v : Attrs) :
    attrDiffMerge store ids k = some v ↔ (blockOf k ∈ ids ∧ (k, v) ∈ store) := by
  unfold attrDiffMerge
  rw [attrDiffMerge_go store hnd ids _ k]
  by_cases hc : blockOf k ∈ ids ∧ k ∈ store.map Prod.fst
  · rw [if_pos hc, mapGet_eq_some_iff store hnd]
    exact ⟨fun hv => ⟨hc.1, hv⟩, fun hv => hv.2⟩
  · rw [if_neg hc]
    exact ⟨fun hcon => Option.noConfusion hcon,
      fun hv => absurd ⟨hv.1, mem_keys_iff.mpr ⟨v, hv.2⟩⟩ hc⟩

/-- C8: `API.IndexAttrDiff` returns exactly the union, over every block
id in the diff of the local column attribute store's block summary
against the supplied remote summary (blocks with differing checksums or
present on one side only), of the local store's id-to-attributes data for
that block — and nothing from blocks whose checksums agree (their ids are
not in the diff, so by the iff none of their keys appear);
`API.FieldAttrDiff` behaves identically over the field's row attribute
store. -/
theorem attrDiff_returns_differing_blocks :
    (∀ (h : Holder) (iname : String) (cks : AttrStoreData → Nat)
       (remote : List AttrBlock) (ix : Pilosa.Index) (m : Nat → Option Attrs),
      h.Index iname = some ix →
      (ix.columnAttrStore.map Prod.fst).Nodup →
      API.IndexAttrDiff .normal h iname cks remote = .ok m →
      ∀ k v, m k = some v ↔
        (blockOf k ∈ AttrBlocks.Diff (Blocks cks ix.columnAttrStore) remote ∧
         (k, v) ∈ ix.columnAttrStore)) ∧
    (∀ (h : Holder) (iname fname : String) (cks : AttrStoreData → Nat)
       (remote : List AttrBlock) (f : Pilosa.Field) (m : Nat → Option Attrs),
      h.Field iname fname = some f →
      (f.rowAttrStore.map Prod.fst).Nodup →
      API.FieldAttrDiff .normal h iname fname cks remote = .ok m →
      ∀ k v, m k = some v ↔
        (blockOf k ∈ AttrBlocks.Diff (Blocks cks f.rowAttrStore) remote ∧
         (k, v) ∈ f.rowAttrStore)) := by
  constructor
  · intro h iname cks remote ix m hix hnd hcall k v
    have hv : validate ClusterState.normal ApiMethod.apiIndexAttrDiff = .ok () := rfl
    simp only [API.IndexAttrDiff, hv, hix] at hcall
    cases hcall
    exact attrDiffMerge_spec ix.columnAttrStore hnd _ k v
  · intro h iname fname cks remote f m hf hnd hcall k v
    have hv : validate ClusterState.normal ApiMethod.apiFieldAttrDiff = .ok () := rfl
    simp only [API.FieldAttrDiff, hv, hf] at hcall
    cases hcall
    exact attrDiffMerge_spec f.rowAttrStore hnd _ k v

/-- A sample two-block attribute store: id 5 in block 0, id 105 in
block 1. -/
def storeTwoBlocks : AttrStoreData := [(5, [("c", "x")]), (105, [("d", "y")])]

/-- The length-of-block checksum used by the C8 witness. -/
def cksLen (bd : AttrStoreData) : Nat := bd.length

/-- A remote summary agreeing with `storeTwoBlocks` on block 0 and
differing on block 1. -/
def remoteDiffers : List AttrBlock := [{ id := 0, checksum := 1 }, { id := 1, checksum := 7 }]

/-- A sample index whose column attribute store is `storeTwoBlocks`. -/
def ixAttrs : Pilosa.Index := { path := "i", name := "i", columnAttrStore := storeTwoBlocks }

/-- A sample field whose row attribute store is `storeTwoBlocks`. -/
def fldAttrs : Pilosa.Field :=
  { path := "i/f", indexName := "i", name := "f", rowAttrStore := storeTwoBlocks }

/-- A sample holder carrying `ixAttrs` with field `fldAttrs`. -/
def holderAttrs : Holder :=
  { indexes := [("i", { ixAttrs with fields := [("f", fldAttrs)] })] }

/-- C8 witness: with remote checksums differing only on block 1, the
diff result contains the store entry of block 1. -/
theorem attrDiff_returns_differing_blocks_witness :
    attrDiffMerge storeTwoBlocks
        (AttrBlocks.Diff (Blocks cksLen storeTwoBlocks) remoteDiffers) 105 =
      some [("d", "y")] ∧
    attrDiffMerge storeTwoBlocks
        (AttrBlocks.Diff (Blocks cksLen storeTwoBlocks) remoteDiffers) 5 = none := by
  constructor
  · exact ((attrDiff_returns_differing_blocks.1 holderAttrs "i" cksLen remoteDiffers
      ({ ixAttrs with fields := [("f", fldAttrs)] }) _ rfl (by decide) rfl 105
      [("d", "y")]).mpr ⟨by decide, by decide⟩)
  · have hiff := attrDiff_returns_differing_blocks.2 holderAttrs "i" "f" cksLen remoteDiffers
      fldAttrs _ rfl (by decide) rfl 5
    rcases hres : attrDiffMerge storeTwoBlocks
        (AttrBlocks.Diff (Blocks cksLen storeTwoBlocks) remoteDiffers) 5 with _ | w
    · rfl
    · have := (hiff w).mp hres
      exact absurd this.1 (by decide)

end Pilosa
